import Mathlib

/-!
Verification of the cache-coordination core of the httpmirror repository
(`mirror.go`, `fs.go`).

The development has three layers:

* a shallow embedding of the sequential decision logic of
  `MirrorHandler.cacheResponse` and `MirrorHandler.cacheFile`, where the
  results of the external collaborators (the remote store's `Stat`/`Put`,
  the origin `HEAD`/`GET` probes, the caller's context, the select on the
  populate channel) are inputs to a pure function;
* a shallow embedding of the request routing in `MirrorHandler.ServeHTTP`
  over Go strings modelled as `List Char`;
* a small-step transition system for the per-key reservation protocol
  built on `sync.Map.LoadOrStore` / `Delete` / `close` (lines 124-141 and
  189-212 of `mirror.go`), used for the concurrency claims.
-/

namespace HttpMirror

/-- Go `error` values reaching the handler, classified the way the code
distinguishes them: `errors.Is(err, context.Canceled)`,
`errors.Is(err, ErrNotOK)`, everything else.  `deadlineExceeded` is the
value of `ctx.Err()` after a deadline, distinct from `canceled`. -/
inductive GoError where
  | canceled
  | deadlineExceeded
  | notOK
  | other
  deriving DecidableEq, Repr

/-- The observable outcome of one request, as written by `ServeHTTP` and
`cacheResponse`: a 405, a 403, a 404 (`notFoundResponse`), a 302 redirect
(`http.Redirect`), a 500 with the error text (`errorResponse` on a non-nil
error), or the nil-pointer panic that `errorResponse` performs when handed
a nil `error` (line 290: `e := err.Error()`). `directStream` is the
fallback proxy path when no cache is configured. -/
inductive Response where
  | methodNotAllowed
  | forbidden
  | notFound
  | redirect
  | errorResp (e : GoError)
  | panicNilError
  | directStream
  deriving DecidableEq, Repr

/-- `MirrorHandler.errorResponse` (mirror.go lines 289-295): it calls
`err.Error()` unconditionally, so a nil error (modelled as `none`) panics. -/
def errorResponse : Option GoError → Response
  | none => .panicNilError
  | some e => .errorResp e

/-- Result of `m.RemoteCache.Stat(ctx, file)` (mirror.go line 142):
success with the cached object's size, an error wrapping
`context.Canceled`, or any other error. Sizes are Go `int64`, modelled
as `Int`. -/
inductive StatResult where
  | ok (size : Int)
  | errCanceled
  | errOther
  deriving DecidableEq, Repr

/-- Result of `httpHead(sourceCtx, ...)` (mirror.go line 164): success
with the origin-declared size, or any failure (including the bounded
context timing out). -/
inductive HeadResult where
  | ok (size : Int)
  | err
  deriving DecidableEq, Repr

/-- Outcome of the reservation loop (mirror.go lines 124-135) for this
caller: either it eventually wins the `LoadOrStore` insert, or its
context is cancelled while waiting on another caller's channel; in the
latter case `ctx.Done()` has fired, so `ctx.Err()` is the carried non-nil
error. -/
inductive ReserveEvent where
  | acquired
  | canceledWhileWaiting (e : GoError)
  deriving DecidableEq, Repr

/-- Which arm of the final `select` fires (mirror.go lines 197-212):
the caller's `ctx.Done()` (carrying the then non-nil `ctx.Err()`), or the
populate goroutine's result on `errCh` (`none` = populate succeeded). -/
inductive WaitEvent where
  | ctxDone (e : GoError)
  | popDone (r : Option GoError)
  deriving DecidableEq, Repr

/-- What one run of `cacheResponse` did: the response written, whether the
populate goroutine was spawned (`go func() ... m.cacheFile ...`, lines
191-195), and whether the caller itself executed `doneCache` (as opposed
to leaving the reservation to the goroutine or to nobody). -/
structure RunResult where
  resp : Response
  populated : Bool
  releasedByCaller : Bool
  deriving DecidableEq, Repr

/-- The populate branch (mirror.go lines 189-212): spawn the goroutine
and `select` on the caller's cancellation versus the goroutine's result.
`errors.Is(err, ErrNotOK)` maps to `notFoundResponse`. The goroutine,
not the caller, runs `doneCache`. -/
def populateAndWait (wait : WaitEvent) : RunResult :=
  match wait with
  | .ctxDone e => ⟨errorResponse (some e), true, false⟩
  | .popDone none => ⟨.redirect, true, false⟩
  | .popDone (some e) =>
      if e = .notOK then ⟨.notFound, true, false⟩
      else ⟨errorResponse (some e), true, false⟩

/-- The decision core of `MirrorHandler.cacheResponse` (mirror.go lines
115-213) as a function of the collaborator outcomes.  `resolveOk` is the
second return of `m.RedirectLinks(file)`; `checkSyncTimeout` is
`m.CheckSyncTimeout` (a Go `time.Duration`); `ctxErrAtStat` is the value
`ctx.Err()` would return at the moment the Stat error is examined
(line 145), `none` when the caller's context is not done. -/
def cacheResponseRun (checkSyncTimeout : Int) (resolveOk : Bool)
    (reserve : ReserveEvent) (ctxErrAtStat : Option GoError)
    (stat : StatResult) (head : HeadResult) (wait : WaitEvent) : RunResult :=
  if !resolveOk then ⟨.notFound, false, false⟩
  else
    match reserve with
    | .canceledWhileWaiting e => ⟨errorResponse (some e), false, false⟩
    | .acquired =>
      match stat with
      | .errCanceled => ⟨errorResponse ctxErrAtStat, false, true⟩
      | .errOther => populateAndWait wait
      | .ok cacheSize =>
        if checkSyncTimeout = 0 then ⟨.redirect, false, true⟩
        else
          match head with
          | .err => ⟨.redirect, false, true⟩
          | .ok sourceSize =>
            if cacheSize ≠ 0 ∧ (sourceSize ≤ 0 ∨ sourceSize = cacheSize) then
              ⟨.redirect, false, true⟩
            else populateAndWait wait

/-- Result of `httpGet` as consumed by `cacheFile` (mirror.go line 216):
failure, or a response body together with `info.Size()`, the declared
content length (`-1` when unknown). The body is modelled as a byte list. -/
inductive GetResult where
  | err (e : GoError)
  | ok (body : List Nat) (contentLength : Int)
  deriving DecidableEq, Repr

/-- What one run of `cacheFile` did: its returned error (`none` on
success) and the stream handed to `RemoteCache.Put` (`none` when `Put`
was never called). -/
structure CacheFileRun where
  result : Option GoError
  putArg : Option (List Nat)
  deriving DecidableEq, Repr

/-- `MirrorHandler.cacheFile` (mirror.go lines 215-248): GET the origin,
return `ErrNotOK` when the declared length is exactly 0, wrap the body in
`io.LimitReader(body, contentLength)` when the length is positive, then
`Put`.  `putResult` is the outcome of the `Put` call when it happens. -/
def cacheFile (get : GetResult) (putResult : Option GoError) : CacheFileRun :=
  match get with
  | .err e => ⟨some e, none⟩
  | .ok body contentLength =>
    if contentLength = 0 then ⟨some .notOK, none⟩
    else
      let limited :=
        if contentLength > 0 then body.take contentLength.toNat else body
      match putResult with
      | some e => ⟨some e, some limited⟩
      | none => ⟨none, some limited⟩

/-! ### Request routing: `MirrorHandler.ServeHTTP` (mirror.go lines 49-113)

Go strings are modelled as `List Char`; `gs` converts a Lean string
literal. `strings.Split(s, "/")`, `strings.Join(elems, "/")`,
`strings.HasSuffix` and `strings.Contains(host, ".")` are embedded
directly; `s3utils.IsValidDomain` is an external collaborator and enters
as an oracle `isValidDomain`. -/

/-- Go string, as a character list. -/
abbrev GoStr := List Char

/-- Convert a Lean string literal into the Go-string model. -/
def gs (s : String) : GoStr := s.toList

/-- Go `strings.HasSuffix(s, suffix)`. -/
def hasSuffix (s suffix : GoStr) : Bool := suffix.isSuffixOf s

/-- Go `strings.Split(s, "/")`: always returns at least one element; an
empty input yields `[[]]`. -/
def splitSlash : GoStr → List GoStr
  | [] => [[]]
  | c :: rest =>
    if c = '/' then [] :: splitSlash rest
    else
      match splitSlash rest with
      | [] => [[c]]
      | h :: t => (c :: h) :: t

/-- Go `strings.Join(elems, "/")`. -/
def joinSlash : List GoStr → GoStr
  | [] => []
  | [s] => s
  | s :: rest => s ++ '/' :: joinSlash rest

/-- HTTP method, distinguishing only what line 50 of mirror.go does. -/
inductive Method where
  | get
  | head
  | otherMethod
  deriving DecidableEq, Repr

/-- The configuration fields of `MirrorHandler` that `ServeHTTP` routing
reads. `hasCache` is `RemoteCache != nil && RedirectLinks != nil`
(mirror.go line 106). -/
structure Config where
  blockSuffix : List GoStr
  hostFromFirstPath : Bool
  baseDomain : GoStr
  hasCache : Bool
  deriving DecidableEq, Repr

/-- The target `ServeHTTP` hands to the next stage: the rewritten
`r.URL.Host` and `r.URL.Path`. -/
structure Resolved where
  host : GoStr
  reqPath : GoStr
  deriving DecidableEq, Repr

/-- Where `ServeHTTP` ends up: an early response, the direct-proxy
fallback, or `cacheResponse` with the resolved target. -/
inductive RouteResult where
  | methodNotAllowed
  | forbidden
  | notFound
  | direct (r : Resolved)
  | cacheRoute (r : Resolved)
  deriving DecidableEq, Repr

/-- The host-from-first-path rewrite (mirror.go lines 70-81), reached
only with a nonempty path not ending in `/`: split `path[1:]` on `/`,
the first segment is the host, the rest rejoined (with a leading `/`)
is the new path; a resulting path of exactly `/` is rejected. -/
def hostFromFirstPathSplit (p : GoStr) : Option (GoStr × GoStr) :=
  let paths := splitSlash (p.drop 1)
  let host := paths.headD []
  let newPath := '/' :: joinSlash paths.tail
  if newPath = ['/'] then none else some (host, newPath)

/-- `MirrorHandler.ServeHTTP` (mirror.go lines 49-113) up to the handoff
to `directResponse` or `cacheResponse`.  The checks appear in source
order: method, blocked suffix, empty-or-slash path, optional
host-from-first-path rewrite, host validation, base-domain suffix
stripping, cache-configured dispatch. -/
def serveHTTP (cfg : Config) (isValidDomain : GoStr → Bool)
    (method : Method) (reqHost p : GoStr) : RouteResult :=
  if method ≠ .get ∧ method ≠ .head then .methodNotAllowed
  else if cfg.blockSuffix.any (fun suffix => hasSuffix p suffix) then .forbidden
  else if p.length = 0 ∨ hasSuffix p (gs "/") then .notFound
  else
    let hp : Option (GoStr × GoStr) :=
      if cfg.hostFromFirstPath then hostFromFirstPathSplit p
      else some (reqHost, p)
    match hp with
    | none => .notFound
    | some (host, path1) =>
      if ¬ host.contains '.' ∨ ¬ isValidDomain host then .notFound
      else if cfg.baseDomain ≠ [] ∧ ¬ hasSuffix host cfg.baseDomain then
        .notFound
      else
        let host2 :=
          if cfg.baseDomain ≠ [] then
            host.take (host.length - cfg.baseDomain.length)
          else host
        if cfg.hasCache then .cacheRoute ⟨host2, path1⟩
        else .direct ⟨host2, path1⟩

/-! ### The reservation protocol (mirror.go lines 124-141, 189-212)

A small-step system over one cache key `u`.  Each inbound request is a
thread; `sync.Map.LoadOrStore(u, make(chan struct{}))` is an atomic
test-and-insert of a fresh channel (a generation number `gen`);
`doneCache` is `m.mut.Delete(u)` followed by `close(closeCh)`.  The
populate goroutine is a separate unit (`Job`) whose program order is:
`Put` into the store (or fail before `Put`), send on the buffered
`errCh`, then the deferred `doneCache`.  The remote store for this key
is abstracted to `store : Bool` (populated or not): `Stat` hits exactly
when `store = true`, and a hit is trusted (the `CheckSyncTimeout == 0`
redirect path), while a miss spawns the populate.  `Put` always succeeds
here; a populate may instead fail before `Put` (`sent false`), covering
the fetch-error paths of `cacheFile`. -/

/-- Phase of a populate goroutine: still before `Put`; result sent on
`errCh` (`ok = true` iff `Put` ran and succeeded, `ok = false` for a
failure before `Put`); deferred `doneCache` executed. -/
inductive JobPhase where
  | running
  | sent (ok : Bool)
  | finished (ok : Bool)
  deriving DecidableEq, Repr

/-- A job is active while its deferred `doneCache` has not yet run, i.e.
while it still owns the key's reservation. -/
def JobPhase.isActive : JobPhase → Bool
  | .finished _ => false
  | _ => true

/-- A populate goroutine: the channel generation it owns and its phase. -/
structure Job where
  gen : Nat
  phase : JobPhase
  deriving DecidableEq, Repr

/-- State of one request thread in `cacheResponse`: before `LoadOrStore`;
blocked in the `select` of the reservation loop on channel `gen`; winner
of `LoadOrStore` (about to `Stat`); blocked in the final `select` while
its populate goroutine runs; or terminated with a redirect, a populate
failure surfaced by `errorResponse`, or a cancellation. -/
inductive TState where
  | start
  | waiting (gen : Nat)
  | owner (gen : Nat)
  | callerWait (gen : Nat)
  | doneRedirect
  | doneError
  | doneCanceled
  deriving DecidableEq, Repr

/-- Global state: the in-flight map entry for the key (`none` when the
key is absent), a fresh-generation counter, the set of closed channels,
whether the store holds the key, how many `Put` calls happened, the
thread pool, and the spawned goroutines. -/
structure SysState where
  slot : Option Nat
  nextGen : Nat
  closed : List Nat
  store : Bool
  puts : Nat
  threads : Nat → TState
  jobs : Nat → Option Job
  nextJob : Nat

/-- Initial state: empty in-flight map, nothing cached, arbitrarily many
requests about to enter the reservation loop. -/
def initState : SysState :=
  ⟨none, 0, [], false, 0, fun _ => .start, fun _ => none, 0⟩

/-- One interleaved step of the system.  Each rule is one atomic action
of `cacheResponse` or of a populate goroutine. -/
inductive Step : SysState → SysState → Prop where
  | acquire (s : SysState) (i : Nat) :
      s.threads i = .start → s.slot = none →
      Step s { s with
               slot := some s.nextGen
               nextGen := s.nextGen + 1
               threads := Function.update s.threads i (.owner s.nextGen) }
  | loadExisting (s : SysState) (i g : Nat) :
      s.threads i = .start → s.slot = some g →
      Step s { s with threads := Function.update s.threads i (.waiting g) }
  | wakeRetry (s : SysState) (i g : Nat) :
      s.threads i = .waiting g → g ∈ s.closed →
      Step s { s with threads := Function.update s.threads i .start }
  | cancelWaiting (s : SysState) (i g : Nat) :
      s.threads i = .waiting g →
      Step s { s with threads := Function.update s.threads i .doneCanceled }
  | statHitRedirect (s : SysState) (i g : Nat) :
      s.threads i = .owner g → s.store = true →
      Step s { s with
               slot := none
               closed := g :: s.closed
               threads := Function.update s.threads i .doneRedirect }
  | statMissSpawn (s : SysState) (i g : Nat) :
      s.threads i = .owner g → s.store = false →
      Step s { s with
               threads := Function.update s.threads i (.callerWait g)
               jobs := Function.update s.jobs s.nextJob (some ⟨g, .running⟩)
               nextJob := s.nextJob + 1 }
  | jobPut (s : SysState) (j g : Nat) :
      s.jobs j = some ⟨g, .running⟩ →
      Step s { s with
               store := true
               puts := s.puts + 1
               jobs := Function.update s.jobs j (some ⟨g, .sent true⟩) }
  | jobFail (s : SysState) (j g : Nat) :
      s.jobs j = some ⟨g, .running⟩ →
      Step s { s with jobs := Function.update s.jobs j (some ⟨g, .sent false⟩) }
  | jobRelease (s : SysState) (j g : Nat) (ok : Bool) :
      s.jobs j = some ⟨g, .sent ok⟩ →
      Step s { s with
               slot := none
               closed := g :: s.closed
               jobs := Function.update s.jobs j (some ⟨g, .finished ok⟩) }
  | callerRecv (s : SysState) (i j g : Nat) (ok : Bool) :
      s.threads i = .callerWait g →
      (s.jobs j = some ⟨g, .sent ok⟩ ∨ s.jobs j = some ⟨g, .finished ok⟩) →
      Step s { s with threads := Function.update s.threads i (if ok then .doneRedirect else .doneError) }
  | cancelCallerWait (s : SysState) (i g : Nat) :
      s.threads i = .callerWait g →
      Step s { s with threads := Function.update s.threads i .doneCanceled }

/-- Reachability from the initial state. -/
inductive Reachable : SysState → Prop where
  | init : Reachable initState
  | step {s s' : SysState} : Reachable s → Step s s' → Reachable s'

/-- The protocol invariant.  The first three fields are the single-flight
property: at most one reservation holder (an `owner` thread or an active
job) exists for the key at any instant.  The remaining fields tie the
in-flight map entry to its holder, record that a channel is closed at
most once, and relate the store contents to the number of `Put` calls. -/
structure Inv (s : SysState) : Prop where
  ownerUnique : ∀ i j gi gj, s.threads i = .owner gi → s.threads j = .owner gj → i = j
  jobUnique : ∀ j k J K, s.jobs j = some J → s.jobs k = some K →
    J.phase.isActive = true → K.phase.isActive = true → j = k
  ownerJob : ∀ i g j J, s.threads i = .owner g → s.jobs j = some J →
    J.phase.isActive = true → False
  ownerSlot : ∀ i g, s.threads i = .owner g → s.slot = some g
  jobSlot : ∀ j J, s.jobs j = some J → J.phase.isActive = true → s.slot = some J.gen
  slotNotClosed : ∀ g, s.slot = some g → g ∉ s.closed
  closedNodup : s.closed.Nodup
  closedLt : ∀ g, g ∈ s.closed → g < s.nextGen
  slotLt : ∀ g, s.slot = some g → g < s.nextGen
  jobIdxLt : ∀ j J, s.jobs j = some J → j < s.nextJob
  putsLe : s.puts ≤ 1
  storePuts : s.store = true ↔ s.puts = 1
  runningStore : ∀ j J, s.jobs j = some J → J.phase = .running → s.store = false
  okStore : ∀ j J, s.jobs j = some J →
    (J.phase = .sent true ∨ J.phase = .finished true) → s.store = true
  finishedClosed : ∀ j J ok, s.jobs j = some J → J.phase = .finished ok →
    J.gen ∈ s.closed

/-- Case split for reading back a pointwise function update. -/
theorem update_eq_cases {β : Type} {f : Nat → β} {i k : Nat} {v w : β}
    (h : Function.update f i v k = w) : (k = i ∧ v = w) ∨ (k ≠ i ∧ f k = w) := by
  rcases eq_or_ne k i with rfl | hne
  · left
    exact ⟨rfl, by simpa using h⟩
  · right
    exact ⟨hne, by simpa [Function.update_apply, hne] using h⟩

/-- The invariant holds initially. -/
theorem inv_init : Inv initState := by
  refine ⟨?_, ?_, ?_, ?_, ?_, ?_, ?_, ?_, ?_, ?_, ?_, ?_, ?_, ?_, ?_⟩ <;>
    simp [initState]

/-- Updating one thread to any non-`owner` state preserves the invariant:
this covers every rule that only moves a thread between the waiting,
final and retry states. -/
theorem inv_threadUpdate {s : SysState} (h : Inv s) (i : Nat) (v : TState)
    (hv : ∀ g, v ≠ .owner g) :
    Inv { s with threads := Function.update s.threads i v } := by
  refine ⟨?_, h.jobUnique, ?_, ?_, h.jobSlot, h.slotNotClosed, h.closedNodup,
    h.closedLt, h.slotLt, h.jobIdxLt, h.putsLe, h.storePuts, h.runningStore,
    h.okStore, h.finishedClosed⟩
  · intro a b ga gb ha hb
    rcases update_eq_cases ha with ⟨_, hva⟩ | ⟨_, ha'⟩
    · exact absurd hva (hv ga)
    rcases update_eq_cases hb with ⟨_, hvb⟩ | ⟨_, hb'⟩
    · exact absurd hvb (hv gb)
    exact h.ownerUnique a b ga gb ha' hb'
  · intro a g j J ha hj hJ
    rcases update_eq_cases ha with ⟨_, hva⟩ | ⟨_, ha'⟩
    · exact absurd hva (hv g)
    exact h.ownerJob a g j J ha' hj hJ
  · intro a g ha
    rcases update_eq_cases ha with ⟨_, hva⟩ | ⟨_, ha'⟩
    · exact absurd hva (hv g)
    exact h.ownerSlot a g ha'

/-- Winning the `LoadOrStore` insert preserves the invariant: the insert
only fires on an empty slot, and an empty slot means no other owner and
no active job exist. -/
theorem inv_acquire {s : SysState} (h : Inv s) (i : Nat)
    (_hi : s.threads i = .start) (hslot : s.slot = none) :
    Inv { s with
          slot := some s.nextGen
          nextGen := s.nextGen + 1
          threads := Function.update s.threads i (.owner s.nextGen) } := by
  have noOwner : ∀ k g, s.threads k = .owner g → False := by
    intro k g hk
    have hsk := h.ownerSlot k g hk
    rw [hslot] at hsk
    exact Option.noConfusion hsk
  have noJob : ∀ j J, s.jobs j = some J → J.phase.isActive = true → False := by
    intro j J hj hJ
    have hsj := h.jobSlot j J hj hJ
    rw [hslot] at hsj
    exact Option.noConfusion hsj
  refine ⟨?_, h.jobUnique, ?_, ?_, ?_, ?_, h.closedNodup, ?_, ?_, h.jobIdxLt,
    h.putsLe, h.storePuts, h.runningStore, h.okStore, h.finishedClosed⟩
  · intro a b ga gb ha hb
    rcases update_eq_cases ha with ⟨hai, _⟩ | ⟨_, ha'⟩
    · rcases update_eq_cases hb with ⟨hbi, _⟩ | ⟨_, hb'⟩
      · rw [hai, hbi]
      · exact (noOwner b gb hb').elim
    · exact (noOwner a ga ha').elim
  · intro a g j J _ hj hJ
    exact noJob j J hj hJ
  · intro a g ha
    rcases update_eq_cases ha with ⟨_, hv⟩ | ⟨_, ha'⟩
    · have hg : s.nextGen = g := by
        injection hv
      exact congrArg some hg
    · exact (noOwner a g ha').elim
  · intro j J hj hJ
    exact (noJob j J hj hJ).elim
  · intro g hg hmem
    have hg' : some s.nextGen = some g := hg
    have hmem' : g ∈ s.closed := hmem
    have hlt := h.closedLt g hmem'
    rw [Option.some.inj hg'] at hlt
    exact Nat.lt_irrefl g hlt
  · intro g hg
    exact Nat.lt_succ_of_lt (h.closedLt g hg)
  · intro g hg
    have hg' : some s.nextGen = some g := hg
    rw [← Option.some.inj hg']
    exact Nat.lt_succ_self s.nextGen

/-- The hit-and-trust path (Stat success with the store populated,
redirect after `doneCache`) preserves the invariant. -/
theorem inv_statHitRedirect {s : SysState} (h : Inv s) (i g : Nat)
    (hi : s.threads i = .owner g) (hstore : s.store = true) :
    Inv { s with
          slot := none
          closed := g :: s.closed
          threads := Function.update s.threads i .doneRedirect } := by
  have noJob : ∀ j J, s.jobs j = some J → J.phase.isActive = true → False :=
    fun j J hj hJ => h.ownerJob i g j J hi hj hJ
  have noOwnerAfter : ∀ a ga,
      Function.update s.threads i TState.doneRedirect a = .owner ga → False := by
    intro a ga ha
    rcases update_eq_cases ha with ⟨_, hv⟩ | ⟨hne, ha'⟩
    · exact TState.noConfusion hv
    · exact hne (h.ownerUnique a i ga g ha' hi)
  have hnc : g ∉ s.closed := h.slotNotClosed g (h.ownerSlot i g hi)
  refine ⟨?_, h.jobUnique, ?_, ?_, ?_, ?_, ?_, ?_, ?_, h.jobIdxLt,
    h.putsLe, h.storePuts, ?_, ?_, ?_⟩
  · intro a b ga gb ha _
    exact (noOwnerAfter a ga ha).elim
  · intro a ga j J ha _ _
    exact noOwnerAfter a ga ha
  · intro a ga ha
    exact (noOwnerAfter a ga ha).elim
  · intro j J hj hJ
    exact (noJob j J hj hJ).elim
  · intro g' hg'
    exact Option.noConfusion hg'
  · exact List.nodup_cons.mpr ⟨hnc, h.closedNodup⟩
  · intro g' hg'
    rcases List.mem_cons.mp hg' with rfl | hmem
    · exact h.slotLt g' (h.ownerSlot i g' hi)
    · exact h.closedLt g' hmem
  · intro g' hg'
    exact Option.noConfusion hg'
  · intro j J hj hrun
    exact (noJob j J hj (by rw [hrun]; rfl)).elim
  · intro j J hj hok
    exact hstore
  · intro j J ok hj hfin
    exact List.mem_cons_of_mem g (h.finishedClosed j J ok hj hfin)

/-- The miss path (Stat failure, populate goroutine spawned with the
reservation handed over to it) preserves the invariant. -/
theorem inv_statMissSpawn {s : SysState} (h : Inv s) (i g : Nat)
    (hi : s.threads i = .owner g) (hstore : s.store = false) :
    Inv { s with
          threads := Function.update s.threads i (.callerWait g)
          jobs := Function.update s.jobs s.nextJob (some ⟨g, .running⟩)
          nextJob := s.nextJob + 1 } := by
  have hslot : s.slot = some g := h.ownerSlot i g hi
  have noJob : ∀ j J, s.jobs j = some J → J.phase.isActive = true → False :=
    fun j J hj hJ => h.ownerJob i g j J hi hj hJ
  have noOwnerAfter : ∀ a ga,
      Function.update s.threads i (TState.callerWait g) a = .owner ga → False := by
    intro a ga ha
    rcases update_eq_cases ha with ⟨_, hv⟩ | ⟨hne, ha'⟩
    · exact TState.noConfusion hv
    · exact hne (h.ownerUnique a i ga g ha' hi)
  have jobAfter : ∀ a (J : Job),
      Function.update s.jobs s.nextJob (some ⟨g, JobPhase.running⟩) a = some J →
      (a = s.nextJob ∧ J = ⟨g, .running⟩) ∨ (a ≠ s.nextJob ∧ s.jobs a = some J) := by
    intro a J ha
    rcases update_eq_cases ha with ⟨hai, hv⟩ | ⟨hne, ha'⟩
    · exact Or.inl ⟨hai, (Option.some.inj hv).symm⟩
    · exact Or.inr ⟨hne, ha'⟩
  refine ⟨?_, ?_, ?_, ?_, ?_, h.slotNotClosed, h.closedNodup, h.closedLt,
    h.slotLt, ?_, h.putsLe, h.storePuts, ?_, ?_, ?_⟩
  · intro a b ga gb ha _
    exact (noOwnerAfter a ga ha).elim
  · intro a b J K ha hb hJ hK
    rcases jobAfter a J ha with ⟨rfl, _⟩ | ⟨_, ha'⟩
    · rcases jobAfter b K hb with ⟨rfl, _⟩ | ⟨_, hb'⟩
      · rfl
      · exact (noJob b K hb' hK).elim
    · exact (noJob a J ha' hJ).elim
  · intro a ga j J ha _ _
    exact noOwnerAfter a ga ha
  · intro a ga ha
    exact (noOwnerAfter a ga ha).elim
  · intro a J ha hJ
    rcases jobAfter a J ha with ⟨_, rfl⟩ | ⟨_, ha'⟩
    · exact hslot
    · exact (noJob a J ha' hJ).elim
  · intro a J ha
    rcases jobAfter a J ha with ⟨rfl, _⟩ | ⟨_, ha'⟩
    · exact Nat.lt_succ_self s.nextJob
    · exact Nat.lt_succ_of_lt (h.jobIdxLt a J ha')
  · intro a J ha hrun
    exact hstore
  · intro a J ha hok
    rcases jobAfter a J ha with ⟨_, rfl⟩ | ⟨_, ha'⟩
    · rcases hok with hok | hok <;> exact JobPhase.noConfusion hok
    · exact h.okStore a J ha' hok
  · intro a J ok ha hfin
    rcases jobAfter a J ha with ⟨_, rfl⟩ | ⟨_, ha'⟩
    · exact JobPhase.noConfusion hfin
    · exact h.finishedClosed a J ok ha' hfin

/-- The `Put` step of a populate goroutine preserves the invariant: it
can only fire while the store is empty and no `Put` has happened, so the
counter moves from zero to one. -/
theorem inv_jobPut {s : SysState} (h : Inv s) (j g : Nat)
    (hj : s.jobs j = some ⟨g, .running⟩) :
    Inv { s with
          store := true
          puts := s.puts + 1
          jobs := Function.update s.jobs j (some ⟨g, .sent true⟩) } := by
  have hact : (Job.mk g .running).phase.isActive = true := rfl
  have hstore : s.store = false := h.runningStore j ⟨g, .running⟩ hj rfl
  have hputs0 : s.puts = 0 := by
    have hne : s.puts ≠ 1 := by
      intro hp
      rw [h.storePuts.mpr hp] at hstore
      exact Bool.noConfusion hstore
    have hle := h.putsLe
    omega
  have hslot : s.slot = some g := h.jobSlot j ⟨g, .running⟩ hj rfl
  have jobAfter : ∀ a (J : Job),
      Function.update s.jobs j (some ⟨g, JobPhase.sent true⟩) a = some J →
      (a = j ∧ J = ⟨g, .sent true⟩) ∨ (a ≠ j ∧ s.jobs a = some J) := by
    intro a J ha
    rcases update_eq_cases ha with ⟨hai, hv⟩ | ⟨hne, ha'⟩
    · exact Or.inl ⟨hai, (Option.some.inj hv).symm⟩
    · exact Or.inr ⟨hne, ha'⟩
  refine ⟨h.ownerUnique, ?_, ?_, h.ownerSlot, ?_, h.slotNotClosed,
    h.closedNodup, h.closedLt, h.slotLt, ?_, ?_, ?_, ?_, ?_, ?_⟩
  · intro a b J K ha hb hJ hK
    rcases jobAfter a J ha with ⟨haj, _⟩ | ⟨hane, ha'⟩
    · rcases jobAfter b K hb with ⟨hbj, _⟩ | ⟨hbne, hb'⟩
      · rw [haj, hbj]
      · exact ((hbne (h.jobUnique b j K ⟨g, .running⟩ hb' hj hK hact))).elim
    · exact ((hane (h.jobUnique a j J ⟨g, .running⟩ ha' hj hJ hact))).elim
  · intro a ga b J ha hb hJ
    exact h.ownerJob a ga j ⟨g, .running⟩ ha hj hact
  · intro a J ha hJ
    rcases jobAfter a J ha with ⟨_, rfl⟩ | ⟨hane, ha'⟩
    · exact hslot
    · exact ((hane (h.jobUnique a j J ⟨g, .running⟩ ha' hj hJ hact))).elim
  · intro a J ha
    rcases jobAfter a J ha with ⟨haj, _⟩ | ⟨_, ha'⟩
    · rw [haj]
      exact h.jobIdxLt j ⟨g, .running⟩ hj
    · exact h.jobIdxLt a J ha'
  · rw [hputs0]
  · rw [hputs0]
    exact ⟨fun _ => rfl, fun _ => rfl⟩
  · intro a J ha hrun
    rcases jobAfter a J ha with ⟨_, rfl⟩ | ⟨hane, ha'⟩
    · exact JobPhase.noConfusion hrun
    · have haJ : J.phase.isActive = true := by rw [hrun]; rfl
      exact ((hane (h.jobUnique a j J ⟨g, .running⟩ ha' hj haJ hact))).elim
  · intro a J ha hok
    rfl
  · intro a J ok ha hfin
    rcases jobAfter a J ha with ⟨_, rfl⟩ | ⟨_, ha'⟩
    · exact JobPhase.noConfusion hfin
    · exact h.finishedClosed a J ok ha' hfin

/-- A populate goroutine failing before `Put` preserves the invariant. -/
theorem inv_jobFail {s : SysState} (h : Inv s) (j g : Nat)
    (hj : s.jobs j = some ⟨g, .running⟩) :
    Inv { s with jobs := Function.update s.jobs j (some ⟨g, .sent false⟩) } := by
  have hact : (Job.mk g .running).phase.isActive = true := rfl
  have hslot : s.slot = some g := h.jobSlot j ⟨g, .running⟩ hj rfl
  have jobAfter : ∀ a (J : Job),
      Function.update s.jobs j (some ⟨g, JobPhase.sent false⟩) a = some J →
      (a = j ∧ J = ⟨g, .sent false⟩) ∨ (a ≠ j ∧ s.jobs a = some J) := by
    intro a J ha
    rcases update_eq_cases ha with ⟨hai, hv⟩ | ⟨hne, ha'⟩
    · exact Or.inl ⟨hai, (Option.some.inj hv).symm⟩
    · exact Or.inr ⟨hne, ha'⟩
  refine ⟨h.ownerUnique, ?_, ?_, h.ownerSlot, ?_, h.slotNotClosed,
    h.closedNodup, h.closedLt, h.slotLt, ?_, h.putsLe, h.storePuts, ?_, ?_, ?_⟩
  · intro a b J K ha hb hJ hK
    rcases jobAfter a J ha with ⟨haj, _⟩ | ⟨hane, ha'⟩
    · rcases jobAfter b K hb with ⟨hbj, _⟩ | ⟨hbne, hb'⟩
      · rw [haj, hbj]
      · exact ((hbne (h.jobUnique b j K ⟨g, .running⟩ hb' hj hK hact))).elim
    · exact ((hane (h.jobUnique a j J ⟨g, .running⟩ ha' hj hJ hact))).elim
  · intro a ga b J ha hb hJ
    exact h.ownerJob a ga j ⟨g, .running⟩ ha hj hact
  · intro a J ha hJ
    rcases jobAfter a J ha with ⟨_, rfl⟩ | ⟨hane, ha'⟩
    · exact hslot
    · exact ((hane (h.jobUnique a j J ⟨g, .running⟩ ha' hj hJ hact))).elim
  · intro a J ha
    rcases jobAfter a J ha with ⟨haj, _⟩ | ⟨_, ha'⟩
    · rw [haj]
      exact h.jobIdxLt j ⟨g, .running⟩ hj
    · exact h.jobIdxLt a J ha'
  · intro a J ha hrun
    rcases jobAfter a J ha with ⟨_, rfl⟩ | ⟨_, ha'⟩
    · exact JobPhase.noConfusion hrun
    · exact h.runningStore a J ha' hrun
  · intro a J ha hok
    rcases jobAfter a J ha with ⟨_, rfl⟩ | ⟨_, ha'⟩
    · rcases hok with hok | hok
      · exact absurd (by injection hok) (by simp)
      · exact JobPhase.noConfusion hok
    · exact h.okStore a J ha' hok
  · intro a J ok ha hfin
    rcases jobAfter a J ha with ⟨_, rfl⟩ | ⟨_, ha'⟩
    · exact JobPhase.noConfusion hfin
    · exact h.finishedClosed a J ok ha' hfin

/-- The deferred `doneCache` of a populate goroutine (`Delete` then
`close`) preserves the invariant: the goroutine still owned the slot, so
its channel had not been closed before. -/
theorem inv_jobRelease {s : SysState} (h : Inv s) (j g : Nat) (ok : Bool)
    (hj : s.jobs j = some ⟨g, .sent ok⟩) :
    Inv { s with
          slot := none
          closed := g :: s.closed
          jobs := Function.update s.jobs j (some ⟨g, .finished ok⟩) } := by
  have hact : (Job.mk g (.sent ok)).phase.isActive = true := rfl
  have hslot : s.slot = some g := h.jobSlot j ⟨g, .sent ok⟩ hj hact
  have hnc : g ∉ s.closed := h.slotNotClosed g hslot
  have noOwner : ∀ a ga, s.threads a = .owner ga → False :=
    fun a ga ha => h.ownerJob a ga j ⟨g, .sent ok⟩ ha hj hact
  have jobAfter : ∀ a (J : Job),
      Function.update s.jobs j (some ⟨g, JobPhase.finished ok⟩) a = some J →
      (a = j ∧ J = ⟨g, .finished ok⟩) ∨ (a ≠ j ∧ s.jobs a = some J) := by
    intro a J ha
    rcases update_eq_cases ha with ⟨hai, hv⟩ | ⟨hne, ha'⟩
    · exact Or.inl ⟨hai, (Option.some.inj hv).symm⟩
    · exact Or.inr ⟨hne, ha'⟩
  refine ⟨h.ownerUnique, ?_, ?_, ?_, ?_, ?_, ?_, ?_, ?_, ?_, h.putsLe,
    h.storePuts, ?_, ?_, ?_⟩
  · intro a b J K ha hb hJ hK
    rcases jobAfter a J ha with ⟨rfl, rfl⟩ | ⟨hane, ha'⟩
    · exact Bool.noConfusion hJ
    rcases jobAfter b K hb with ⟨rfl, rfl⟩ | ⟨hbne, hb'⟩
    · exact Bool.noConfusion hK
    exact h.jobUnique a b J K ha' hb' hJ hK
  · intro a ga b J ha hb hJ
    exact noOwner a ga ha
  · intro a ga ha
    exact (noOwner a ga ha).elim
  · intro a J ha hJ
    rcases jobAfter a J ha with ⟨rfl, rfl⟩ | ⟨hane, ha'⟩
    · exact Bool.noConfusion hJ
    · exact ((hane (h.jobUnique a j J ⟨g, .sent ok⟩ ha' hj hJ hact))).elim
  · intro g' hg'
    exact Option.noConfusion hg'
  · exact List.nodup_cons.mpr ⟨hnc, h.closedNodup⟩
  · intro g' hg'
    rcases List.mem_cons.mp hg' with rfl | hmem
    · exact h.slotLt g' hslot
    · exact h.closedLt g' hmem
  · intro g' hg'
    exact Option.noConfusion hg'
  · intro a J ha
    rcases jobAfter a J ha with ⟨haj, _⟩ | ⟨_, ha'⟩
    · rw [haj]
      exact h.jobIdxLt j ⟨g, .sent ok⟩ hj
    · exact h.jobIdxLt a J ha'
  · intro a J ha hrun
    rcases jobAfter a J ha with ⟨_, rfl⟩ | ⟨_, ha'⟩
    · exact JobPhase.noConfusion hrun
    · exact h.runningStore a J ha' hrun
  · intro a J ha hok
    rcases jobAfter a J ha with ⟨_, rfl⟩ | ⟨_, ha'⟩
    · rcases hok with hok | hok
      · exact JobPhase.noConfusion hok
      · have hok' : ok = true := by injection hok
        exact h.okStore j ⟨g, .sent ok⟩ hj (Or.inl (by rw [hok']))
    · exact h.okStore a J ha' hok
  · intro a J ok' ha hfin
    rcases jobAfter a J ha with ⟨_, rfl⟩ | ⟨_, ha'⟩
    · exact List.mem_cons_self g s.closed
    · exact List.mem_cons_of_mem g (h.finishedClosed a J ok' ha' hfin)

/-- Every step preserves the invariant. -/
theorem inv_step {s s' : SysState} (h : Inv s) (st : Step s s') : Inv s' := by
  cases st with
  | acquire i hi hslot => exact inv_acquire h i hi hslot
  | loadExisting i g hi hslot =>
      exact inv_threadUpdate h i (.waiting g) (fun g' => by simp)
  | wakeRetry i g hi hmem =>
      exact inv_threadUpdate h i .start (fun g' => by simp)
  | cancelWaiting i g hi =>
      exact inv_threadUpdate h i .doneCanceled (fun g' => by simp)
  | statHitRedirect i g hi hstore => exact inv_statHitRedirect h i g hi hstore
  | statMissSpawn i g hi hstore => exact inv_statMissSpawn h i g hi hstore
  | jobPut j g hj => exact inv_jobPut h j g hj
  | jobFail j g hj => exact inv_jobFail h j g hj
  | jobRelease j g ok hj => exact inv_jobRelease h j g ok hj
  | callerRecv i j g ok hi hj =>
      exact inv_threadUpdate h i _ (fun g' => by cases ok <;> simp)
  | cancelCallerWait i g hi =>
      exact inv_threadUpdate h i .doneCanceled (fun g' => by simp)

/-- The invariant holds in every reachable state. -/
theorem reachable_inv {s : SysState} (h : Reachable s) : Inv s := by
  induction h with
  | init => exact inv_init
  | step _ hst ih => exact inv_step ih hst

/-! ### Supporting lemmas for the claim theorems -/

/-- Whatever the select outcome, the populate branch has spawned the
goroutine. -/
theorem populateAndWait_populated (w : WaitEvent) :
    (populateAndWait w).populated = true := by
  cases w with
  | ctxDone e => rfl
  | popDone r =>
    cases r with
    | none => rfl
    | some e =>
      by_cases he : e = .notOK <;> simp [populateAndWait, he]

/-- `strings.Split` never returns an empty slice. -/
theorem splitSlash_ne_nil (l : GoStr) : splitSlash l ≠ [] := by
  cases l with
  | nil => simp [splitSlash]
  | cons c rest =>
    simp only [splitSlash]
    split
    · simp
    · rcases h : splitSlash rest with _ | ⟨a, b⟩ <;> simp

/-- Splitting on `/` and rejoining with `/` reconstitutes the string:
the remainder the rewrite computes is exactly the original path after
the first segment. -/
theorem joinSlash_splitSlash (l : GoStr) : joinSlash (splitSlash l) = l := by
  induction l with
  | nil => rfl
  | cons c rest ih =>
    by_cases hc : c = '/'
    · subst hc
      simp only [splitSlash, if_pos rfl]
      rcases hsp : splitSlash rest with _ | ⟨a, b⟩
      · exact absurd hsp (splitSlash_ne_nil rest)
      · rw [hsp] at ih
        simpa [joinSlash] using ih
    · simp only [splitSlash, if_neg hc]
      rcases hsp : splitSlash rest with _ | ⟨a, b⟩
      · exact absurd hsp (splitSlash_ne_nil rest)
      · rw [hsp] at ih
        cases b with
        | nil =>
          simp only [joinSlash] at ih ⊢
          rw [ih]
        | cons b0 bs =>
          simp only [joinSlash] at ih ⊢
          rw [List.cons_append, ih]

/-- A segment containing no `/` splits into itself alone. -/
theorem splitSlash_no_slash (l : GoStr) (h : '/' ∉ l) : splitSlash l = [l] := by
  induction l with
  | nil => rfl
  | cons c rest ih =>
    have hc : ¬ c = '/' := fun hcc => h (hcc ▸ List.mem_cons_self c rest)
    have hrest : '/' ∉ rest := fun hm => h (List.mem_cons_of_mem c hm)
    simp only [splitSlash, if_neg hc, ih hrest]

/-! ### Claim theorems -/

/-- Claim C2, counterexample: the claim asserts that a cached entry of
recorded size 0 is refetched "regardless of whether a freshness-check
timeout is configured", but with `CheckSyncTimeout == 0` the code
redirects on any Stat hit (mirror.go lines 157-161) before ever reading
the cached size: no populate is run for a zero-size entry. -/
theorem claim_C2_counterexample :
    (cacheResponseRun 0 true .acquired none (.ok 0) (.ok 5)
      (.popDone none)).populated = false ∧
    (cacheResponseRun 0 true .acquired none (.ok 0) (.ok 5)
      (.popDone none)).resp = .redirect := by
  constructor <;> rfl

/-- Claim C2, amended: when a freshness timeout is configured and the
origin HEAD probe succeeds, a cached size of 0 always falls through to
the populate branch, whatever size the origin reports; with no timeout
configured, or with a failed probe, the handler instead redirects even
for a zero-size entry. -/
theorem claim_C2 (t sourceSize : Int) (wait : WaitEvent) (ht : t ≠ 0) :
    cacheResponseRun t true .acquired none (.ok 0) (.ok sourceSize) wait =
      populateAndWait wait ∧
    (populateAndWait wait).populated = true ∧
    (cacheResponseRun 0 true .acquired none (.ok 0) (.ok sourceSize)
      wait).resp = .redirect ∧
    (cacheResponseRun t true .acquired none (.ok 0) .err wait).resp =
      .redirect := by
  refine ⟨?_, populateAndWait_populated wait, rfl, ?_⟩ <;>
    simp [cacheResponseRun, ht]

/-- Claim C2, witness. -/
theorem claim_C2_witness :
    cacheResponseRun 1 true .acquired none (.ok 0) (.ok 5) (.popDone none) =
      populateAndWait (.popDone none) :=
  (claim_C2 1 5 (.popDone none) (by decide)).1

/-- Claim C3: on a hit with freshness checking enabled and a successful
HEAD probe, the request is answered with a redirect (without populate)
exactly when the cached size is nonzero and the origin size is
non-positive or equal to it; otherwise the run falls through to the
populate branch. -/
theorem claim_C3 (t cacheSize sourceSize : Int) (wait : WaitEvent)
    (ht : t ≠ 0) :
    ((cacheResponseRun t true .acquired none (.ok cacheSize)
        (.ok sourceSize) wait).populated = false ↔
      cacheSize ≠ 0 ∧ (sourceSize ≤ 0 ∨ sourceSize = cacheSize)) ∧
    ((cacheResponseRun t true .acquired none (.ok cacheSize)
        (.ok sourceSize) wait).populated = false →
      cacheResponseRun t true .acquired none (.ok cacheSize)
        (.ok sourceSize) wait = ⟨.redirect, false, true⟩) ∧
    ((cacheResponseRun t true .acquired none (.ok cacheSize)
        (.ok sourceSize) wait).populated = true →
      cacheResponseRun t true .acquired none (.ok cacheSize)
        (.ok sourceSize) wait = populateAndWait wait) := by
  by_cases hc : cacheSize ≠ 0 ∧ (sourceSize ≤ 0 ∨ sourceSize = cacheSize)
  · simp [cacheResponseRun, ht, hc]
  · simp [cacheResponseRun, ht, hc, populateAndWait_populated wait]

/-- Claim C3, witness. -/
theorem claim_C3_witness :
    ((cacheResponseRun 1 true .acquired none (.ok 3) (.ok 3)
        (.ctxDone .canceled)).populated = false ↔
      (3 : Int) ≠ 0 ∧ ((3 : Int) ≤ 0 ∨ (3 : Int) = 3)) ∧
    ((cacheResponseRun 1 true .acquired none (.ok 3) (.ok 3)
        (.ctxDone .canceled)).populated = false →
      cacheResponseRun 1 true .acquired none (.ok 3) (.ok 3)
        (.ctxDone .canceled) = ⟨.redirect, false, true⟩) ∧
    ((cacheResponseRun 1 true .acquired none (.ok 3) (.ok 3)
        (.ctxDone .canceled)).populated = true →
      cacheResponseRun 1 true .acquired none (.ok 3) (.ok 3)
        (.ctxDone .canceled) = populateAndWait (.ctxDone .canceled)) :=
  claim_C3 1 3 3 (.ctxDone .canceled) (by decide)

/-- Claim C4: on a hit with freshness checking enabled, a failed or
timed-out HEAD probe is answered with a redirect to the cached URL with
the reservation released by the caller — never a populate and never a
failure response — whatever the cached size, the context state and the
select outcome. -/
theorem claim_C4 (t cacheSize : Int) (ctxe : Option GoError)
    (wait : WaitEvent) (ht : t ≠ 0) :
    cacheResponseRun t true .acquired ctxe (.ok cacheSize) .err wait =
      ⟨.redirect, false, true⟩ := by
  simp [cacheResponseRun, ht]

/-- Claim C4, witness. -/
theorem claim_C4_witness :
    cacheResponseRun 1 true .acquired none (.ok 0) .err
      (.popDone (some .other)) = ⟨.redirect, false, true⟩ :=
  claim_C4 1 0 none (.popDone (some .other)) (by decide)

/-- Claim C6: a populate whose origin GET declares content length 0
returns `ErrNotOK` before any `Put`; the caller maps that error to the
not-found response; and a positive declared length truncates the stream
handed to `Put` to at most that many bytes. -/
theorem claim_C6 (body : List Nat) (contentLength : Int)
    (putResult : Option GoError) (hpos : 0 < contentLength) :
    cacheFile (.ok body 0) putResult = ⟨some .notOK, none⟩ ∧
    populateAndWait (.popDone (some .notOK)) = ⟨.notFound, true, false⟩ ∧
    (cacheFile (.ok body contentLength) putResult).putArg =
      some (body.take contentLength.toNat) ∧
    ∀ arg, (cacheFile (.ok body contentLength) putResult).putArg = some arg →
      arg.length ≤ contentLength.toNat := by
  have hne : contentLength ≠ 0 := by omega
  refine ⟨by simp [cacheFile], rfl, ?_, ?_⟩
  · cases putResult <;> simp [cacheFile, hne, hpos]
  · intro arg harg
    cases putResult <;>
      · simp [cacheFile, hne, hpos] at harg
        rw [← harg]
        exact (List.length_take _ _).le.trans (min_le_left _ _)

/-- Claim C6, witness. -/
theorem claim_C6_witness :
    cacheFile (.ok [7, 8, 9] 0) none = ⟨some .notOK, none⟩ ∧
    (cacheFile (.ok [7, 8, 9] 2) none).putArg = some [7, 8] ∧
    ∀ arg, (cacheFile (.ok [7, 8, 9] 2) none).putArg = some arg →
      arg.length ≤ (2 : Int).toNat := by
  have h := claim_C6 [7, 8, 9] 2 none (by decide)
  exact ⟨h.1, h.2.2.1, h.2.2.2⟩

/-- Claim C7: every cancellation of the caller's own context is surfaced
as the distinct `Canceled` failure: a Stat error wrapping cancellation
(with the context actually done), a cancellation during the reservation
wait, and a cancellation during the populate wait all produce
`errorResponse(context.Canceled)` — never a soft miss, a not-found or
the populate's own error. -/
theorem claim_C7 (t : Int) (ctxe : Option GoError) (stat : StatResult)
    (head : HeadResult) (wait : WaitEvent) :
    cacheResponseRun t true (.canceledWhileWaiting .canceled) ctxe stat head
      wait = ⟨.errorResp .canceled, false, false⟩ ∧
    cacheResponseRun t true .acquired (some .canceled) .errCanceled head
      wait = ⟨.errorResp .canceled, false, true⟩ ∧
    cacheResponseRun t true .acquired ctxe .errOther head
      (.ctxDone .canceled) = ⟨.errorResp .canceled, true, false⟩ ∧
    populateAndWait (.ctxDone .canceled) = ⟨.errorResp .canceled, true, false⟩ := by
  refine ⟨rfl, rfl, rfl, rfl⟩

/-- Claim C10: the cancellation branch after `Stat` hands `ctx.Err()` to
`errorResponse`, which calls `Error()` on it unconditionally; when the
caller's context is not actually cancelled (`ctx.Err() == nil`) this is
the nil-pointer panic, so the branch is only safe when the context is
really done, in which case the non-nil error is reported. -/
theorem claim_C10 (t : Int) (head : HeadResult) (wait : WaitEvent) :
    cacheResponseRun t true .acquired none .errCanceled head wait =
      ⟨.panicNilError, false, true⟩ ∧
    ∀ e, cacheResponseRun t true .acquired (some e) .errCanceled head wait =
      ⟨.errorResp e, false, true⟩ := by
  exact ⟨rfl, fun e => rfl⟩

/-- Routing lands on the in-flight map and the remote store only through
the cache route. -/
def routeTouchesStore : RouteResult → Bool
  | .cacheRoute _ => true
  | _ => false

/-- Routing reaches the origin only through the cache route (HEAD/GET of
`cacheResponse`) or the direct proxy. -/
def routeTouchesOrigin : RouteResult → Bool
  | .cacheRoute _ => true
  | .direct _ => true
  | _ => false

/-- Claim C8: a GET or HEAD request whose path ends with a configured
blocked suffix is answered 403 before anything else happens — for every
configuration, host, and domain-validation oracle, the result is
`forbidden`, so no host resolution, store call, origin fetch or
in-flight-map change can occur. -/
theorem claim_C8 (cfg : Config) (isValidDomain : GoStr → Bool)
    (method : Method) (reqHost p suffix : GoStr)
    (hm : method = .get ∨ method = .head)
    (hmem : suffix ∈ cfg.blockSuffix) (hsuf : hasSuffix p suffix = true) :
    serveHTTP cfg isValidDomain method reqHost p = .forbidden ∧
    routeTouchesStore (serveHTTP cfg isValidDomain method reqHost p) = false ∧
    routeTouchesOrigin (serveHTTP cfg isValidDomain method reqHost p) = false := by
  have hany : cfg.blockSuffix.any (fun suffix => hasSuffix p suffix) = true :=
    List.any_eq_true.mpr ⟨suffix, hmem, hsuf⟩
  have hserve : serveHTTP cfg isValidDomain method reqHost p = .forbidden := by
    rcases hm with rfl | rfl <;> simp [serveHTTP, hany]
  exact ⟨hserve, by rw [hserve]; rfl, by rw [hserve]; rfl⟩

/-- Claim C8, witness. -/
theorem claim_C8_witness :
    serveHTTP ⟨[gs ".exe"], false, [], true⟩ (fun _ => true) .get
      (gs "example.com") (gs "/a/b.exe") = .forbidden ∧
    routeTouchesStore (serveHTTP ⟨[gs ".exe"], false, [], true⟩
      (fun _ => true) .get (gs "example.com") (gs "/a/b.exe")) = false ∧
    routeTouchesOrigin (serveHTTP ⟨[gs ".exe"], false, [], true⟩
      (fun _ => true) .get (gs "example.com") (gs "/a/b.exe")) = false :=
  claim_C8 ⟨[gs ".exe"], false, [], true⟩ (fun _ => true) .get
    (gs "example.com") (gs "/a/b.exe") (gs ".exe") (Or.inl rfl)
    (by decide) (by decide)

/-- Claim C9: in host-from-first-path mode the path is split on `/`, the
first segment becomes the host and the rejoined remainder the new path
(splitting and rejoining is lossless); `/example.com/a/b` routes to host
`example.com` with path `/a/b`, while a one-segment path such as
`/onlyhost` has an empty remainder and yields not-found. -/
theorem claim_C9 (isValidDomain : GoStr → Bool) (reqHost : GoStr)
    (hv : isValidDomain (gs "example.com") = true) :
    (∀ l : GoStr, joinSlash (splitSlash l) = l) ∧
    hostFromFirstPathSplit (gs "/example.com/a/b") =
      some (gs "example.com", gs "/a/b") ∧
    serveHTTP ⟨[], true, [], true⟩ isValidDomain .get reqHost
      (gs "/example.com/a/b") = .cacheRoute ⟨gs "example.com", gs "/a/b"⟩ ∧
    (∀ seg : GoStr, '/' ∉ seg → hostFromFirstPathSplit ('/' :: seg) = none) ∧
    serveHTTP ⟨[], true, [], true⟩ isValidDomain .get reqHost
      (gs "/onlyhost") = .notFound := by
  refine ⟨joinSlash_splitSlash, by decide, ?_, ?_, ?_⟩
  · have hv' : isValidDomain
        ['e', 'x', 'a', 'm', 'p', 'l', 'e', '.', 'c', 'o', 'm'] = true := hv
    simp only [serveHTTP]
    norm_num
    simp only [hostFromFirstPathSplit]
    simp [gs, splitSlash, joinSlash, hasSuffix, hv']
    decide
  · intro seg hseg
    simp [hostFromFirstPathSplit, splitSlash_no_slash seg hseg, joinSlash]
  · simp [serveHTTP, hostFromFirstPathSplit, gs, splitSlash, joinSlash,
      hasSuffix]

/-- Claim C9, witness. -/
theorem claim_C9_witness :
    hostFromFirstPathSplit (gs "/example.com/a/b") =
      some (gs "example.com", gs "/a/b") ∧
    serveHTTP ⟨[], true, [], true⟩ (fun _ => true) .get (gs "anyhost")
      (gs "/example.com/a/b") = .cacheRoute ⟨gs "example.com", gs "/a/b"⟩ ∧
    serveHTTP ⟨[], true, [], true⟩ (fun _ => true) .get (gs "anyhost")
      (gs "/onlyhost") = .notFound := by
  have h := claim_C9 (fun _ => true) (gs "anyhost") rfl
  exact ⟨h.2.1, h.2.2.1, h.2.2.2.2⟩

/-- A job cannot be both active and inactive. -/
theorem active_ne_inactive {J K : Job} (hJK : J = K)
    (hJ : J.phase.isActive = true) (hK : K.phase.isActive = false) : False := by
  rw [hJK, hK] at hJ
  exact Bool.noConfusion hJ

/-- Inversion for a thread blocked in the reservation loop: one step
either leaves it waiting, wakes it for a retry of the insert (only after
its channel was closed), or cancels it; nothing else can happen to a
loser of `LoadOrStore`. -/
theorem waiting_step_cases {s s' : SysState} (st : Step s s') (i g : Nat)
    (hw : s.threads i = .waiting g) :
    s'.threads i = .waiting g ∨ (s'.threads i = .start ∧ g ∈ s.closed) ∨
    s'.threads i = .doneCanceled := by
  cases st with
  | acquire k hk hslot =>
    rcases eq_or_ne i k with rfl | hne
    · rw [hw] at hk
      exact TState.noConfusion hk
    · exact Or.inl ((Function.update_noteq hne _ _).trans hw)
  | loadExisting k gk hk hslot =>
    rcases eq_or_ne i k with rfl | hne
    · rw [hw] at hk
      exact TState.noConfusion hk
    · exact Or.inl ((Function.update_noteq hne _ _).trans hw)
  | wakeRetry k gk hk hmem =>
    rcases eq_or_ne i k with rfl | hne
    · have hg : g = gk := by
        have hx := hw.symm.trans hk
        injection hx
      exact Or.inr (Or.inl ⟨Function.update_same i _ _, hg ▸ hmem⟩)
    · exact Or.inl ((Function.update_noteq hne _ _).trans hw)
  | cancelWaiting k gk hk =>
    rcases eq_or_ne i k with rfl | hne
    · exact Or.inr (Or.inr (Function.update_same i _ _))
    · exact Or.inl ((Function.update_noteq hne _ _).trans hw)
  | statHitRedirect k gk hk hstore =>
    rcases eq_or_ne i k with rfl | hne
    · rw [hw] at hk
      exact TState.noConfusion hk
    · exact Or.inl ((Function.update_noteq hne _ _).trans hw)
  | statMissSpawn k gk hk hstore =>
    rcases eq_or_ne i k with rfl | hne
    · rw [hw] at hk
      exact TState.noConfusion hk
    · exact Or.inl ((Function.update_noteq hne _ _).trans hw)
  | jobPut k gk hk => exact Or.inl hw
  | jobFail k gk hk => exact Or.inl hw
  | jobRelease k gk ok hk => exact Or.inl hw
  | callerRecv k kj gk ok hk hkj =>
    rcases eq_or_ne i k with rfl | hne
    · rw [hw] at hk
      exact TState.noConfusion hk
    · exact Or.inl ((Function.update_noteq hne _ _).trans hw)
  | cancelCallerWait k gk hk =>
    rcases eq_or_ne i k with rfl | hne
    · rw [hw] at hk
      exact TState.noConfusion hk
    · exact Or.inl ((Function.update_noteq hne _ _).trans hw)

/-- Inversion for the end of a populate job: the only step that moves a
job from active to inactive is its `doneCache`, which deletes the map
entry and closes exactly that job's channel. -/
theorem job_finish_release {s s' : SysState} (h : Inv s) (st : Step s s')
    (j : Nat) (J K : Job) (hj : s.jobs j = some J) (hj' : s'.jobs j = some K)
    (hJ : J.phase.isActive = true) (hK : K.phase.isActive = false) :
    s'.closed = J.gen :: s.closed ∧ s'.slot = none := by
  cases st with
  | acquire k hk hslot =>
    have hj2 : s.jobs j = some K := hj'
    rw [hj] at hj2
    exact (active_ne_inactive (Option.some.inj hj2) hJ hK).elim
  | loadExisting k gk hk hslot =>
    have hj2 : s.jobs j = some K := hj'
    rw [hj] at hj2
    exact (active_ne_inactive (Option.some.inj hj2) hJ hK).elim
  | wakeRetry k gk hk hmem =>
    have hj2 : s.jobs j = some K := hj'
    rw [hj] at hj2
    exact (active_ne_inactive (Option.some.inj hj2) hJ hK).elim
  | cancelWaiting k gk hk =>
    have hj2 : s.jobs j = some K := hj'
    rw [hj] at hj2
    exact (active_ne_inactive (Option.some.inj hj2) hJ hK).elim
  | statHitRedirect k gk hk hstore =>
    have hj2 : s.jobs j = some K := hj'
    rw [hj] at hj2
    exact (active_ne_inactive (Option.some.inj hj2) hJ hK).elim
  | statMissSpawn k gk hk hstore =>
    have hj2 : Function.update s.jobs s.nextJob (some ⟨gk, .running⟩) j =
        some K := hj'
    rcases update_eq_cases hj2 with ⟨hji, hv⟩ | ⟨_, hj3⟩
    · have := h.jobIdxLt j J hj
      rw [hji] at this
      exact absurd this (Nat.lt_irrefl s.nextJob)
    · rw [hj] at hj3
      exact (active_ne_inactive (Option.some.inj hj3) hJ hK).elim
  | jobPut k gk hk =>
    have hj2 : Function.update s.jobs k (some ⟨gk, .sent true⟩) j = some K := hj'
    rcases update_eq_cases hj2 with ⟨hji, hv⟩ | ⟨_, hj3⟩
    · rw [← Option.some.inj hv] at hK
      exact Bool.noConfusion hK
    · rw [hj] at hj3
      exact (active_ne_inactive (Option.some.inj hj3) hJ hK).elim
  | jobFail k gk hk =>
    have hj2 : Function.update s.jobs k (some ⟨gk, .sent false⟩) j = some K := hj'
    rcases update_eq_cases hj2 with ⟨hji, hv⟩ | ⟨_, hj3⟩
    · rw [← Option.some.inj hv] at hK
      exact Bool.noConfusion hK
    · rw [hj] at hj3
      exact (active_ne_inactive (Option.some.inj hj3) hJ hK).elim
  | jobRelease k gk ok hk =>
    have hj2 : Function.update s.jobs k (some ⟨gk, .finished ok⟩) j = some K := hj'
    rcases update_eq_cases hj2 with ⟨hji, hv⟩ | ⟨_, hj3⟩
    · have hJk : J = ⟨gk, .sent ok⟩ := by
        rw [hji] at hj
        rw [hj] at hk
        exact Option.some.inj hk
      refine ⟨?_, rfl⟩
      rw [hJk]
    · rw [hj] at hj3
      exact (active_ne_inactive (Option.some.inj hj3) hJ hK).elim
  | callerRecv k kj gk ok hk hkj =>
    have hj2 : s.jobs j = some K := hj'
    rw [hj] at hj2
    exact (active_ne_inactive (Option.some.inj hj2) hJ hK).elim
  | cancelCallerWait k gk hk =>
    have hj2 : s.jobs j = some K := hj'
    rw [hj] at hj2
    exact (active_ne_inactive (Option.some.inj hj2) hJ hK).elim

/-- Claim C1: the reservation protocol is single-flight per key.  In any
reachable state the `Put` counter never exceeds one, at most one thread
owns the key and at most one populate job is active (and never both), a
successful populate pins the counter at exactly one `Put`, and a loser
of `LoadOrStore` can only keep waiting, retry the insert after the
winner's channel was closed, or return a cancellation failure. -/
theorem claim_C1 {s : SysState} (hs : Reachable s) :
    s.puts ≤ 1 ∧
    (∀ i j gi gj, s.threads i = .owner gi → s.threads j = .owner gj → i = j) ∧
    (∀ j k J K, s.jobs j = some J → s.jobs k = some K →
      J.phase.isActive = true → K.phase.isActive = true → j = k) ∧
    (∀ i g j J, s.threads i = .owner g → s.jobs j = some J →
      J.phase.isActive = true → False) ∧
    (∀ j J, s.jobs j = some J →
      J.phase = .sent true ∨ J.phase = .finished true → s.puts = 1) ∧
    (∀ i g s', s.threads i = .waiting g → Step s s' →
      s'.threads i = .waiting g ∨ (s'.threads i = .start ∧ g ∈ s.closed) ∨
      s'.threads i = .doneCanceled) := by
  have h := reachable_inv hs
  refine ⟨h.putsLe, h.ownerUnique, h.jobUnique, h.ownerJob, ?_, ?_⟩
  · intro j J hj hok
    exact h.storePuts.mp (h.okStore j J hj hok)
  · intro i g s' hw st
    exact waiting_step_cases st i g hw

/-- Claim C1, witness: the guarantees at the initial state. -/
theorem claim_C1_witness :
    initState.puts ≤ 1 ∧
    (∀ i j gi gj, initState.threads i = .owner gi →
      initState.threads j = .owner gj → i = j) ∧
    (∀ j k J K, initState.jobs j = some J → initState.jobs k = some K →
      J.phase.isActive = true → K.phase.isActive = true → j = k) ∧
    (∀ i g j J, initState.threads i = .owner g → initState.jobs j = some J →
      J.phase.isActive = true → False) ∧
    (∀ j J, initState.jobs j = some J →
      J.phase = .sent true ∨ J.phase = .finished true → initState.puts = 1) ∧
    (∀ i g s', initState.threads i = .waiting g → Step initState s' →
      s'.threads i = .waiting g ∨ (s'.threads i = .start ∧ g ∈ initState.closed) ∨
      s'.threads i = .doneCanceled) :=
  claim_C1 Reachable.init

/-- Claim C5: populate jobs are detached and release exactly once.  A
caller blocked on its populate can always be cancelled by a step that
touches neither the in-flight map entry, the jobs, the closed channels
nor the store; after such a cancellation a running populate can still
perform its `Put`; the closed-channel list never holds a duplicate (each
reservation is released at most once) while every finished job's channel
is closed (released at least once), and the only step that deactivates a
job is its own `doneCache`; finally, once a successful populate has
finished and the key is free, a fresh request reaches a redirect in two
steps, observing the updated cache. -/
theorem claim_C5 {s : SysState} (hs : Reachable s) :
    (∀ i g, s.threads i = .callerWait g →
      ∃ s', Step s s' ∧ s'.threads i = .doneCanceled ∧ s'.slot = s.slot ∧
        s'.jobs = s.jobs ∧ s'.closed = s.closed ∧ s'.store = s.store ∧
        s'.puts = s.puts) ∧
    (∀ i g j gj, s.threads i = .callerWait g →
      s.jobs j = some ⟨gj, .running⟩ →
      ∃ s' s'', Step s s' ∧ s'.threads i = .doneCanceled ∧ Step s' s'' ∧
        s''.jobs j = some ⟨gj, .sent true⟩ ∧ s''.store = true) ∧
    s.closed.Nodup ∧
    (∀ j J ok, s.jobs j = some J → J.phase = .finished ok →
      J.gen ∈ s.closed) ∧
    (∀ s' j J K, Step s s' → s.jobs j = some J → s'.jobs j = some K →
      J.phase.isActive = true → K.phase.isActive = false →
      s'.closed = J.gen :: s.closed ∧ s'.slot = none) ∧
    (∀ i j g, s.slot = none → s.threads i = .start →
      s.jobs j = some ⟨g, .finished true⟩ →
      ∃ s1 s2, Step s s1 ∧ Step s1 s2 ∧ s2.threads i = .doneRedirect) := by
  have h := reachable_inv hs
  refine ⟨?_, ?_, h.closedNodup, h.finishedClosed, ?_, ?_⟩
  · intro i g hw
    exact ⟨_, Step.cancelCallerWait s i g hw, Function.update_same i _ _,
      rfl, rfl, rfl, rfl, rfl⟩
  · intro i g j gj hw hj
    exact ⟨_, _, Step.cancelCallerWait s i g hw, Function.update_same i _ _,
      Step.jobPut _ j gj hj, Function.update_same j _ _, rfl⟩
  · intro s' j J K st hj hj' hJ hK
    exact job_finish_release h st j J K hj hj' hJ hK
  · intro i j g hslot hstart hj
    have hstore : s.store = true :=
      h.okStore j ⟨g, .finished true⟩ hj (Or.inr rfl)
    exact ⟨_, _, Step.acquire s i hstart hslot,
      Step.statHitRedirect _ i s.nextGen (Function.update_same i _ _) hstore,
      Function.update_same i _ _⟩

/-- Claim C5, witness: the guarantees at the initial state. -/
theorem claim_C5_witness :
    (∀ i g, initState.threads i = .callerWait g →
      ∃ s', Step initState s' ∧ s'.threads i = .doneCanceled ∧
        s'.slot = initState.slot ∧ s'.jobs = initState.jobs ∧
        s'.closed = initState.closed ∧ s'.store = initState.store ∧
        s'.puts = initState.puts) ∧
    (∀ i g j gj, initState.threads i = .callerWait g →
      initState.jobs j = some ⟨gj, .running⟩ →
      ∃ s' s'', Step initState s' ∧ s'.threads i = .doneCanceled ∧
        Step s' s'' ∧ s''.jobs j = some ⟨gj, .sent true⟩ ∧
        s''.store = true) ∧
    initState.closed.Nodup ∧
    (∀ j J ok, initState.jobs j = some J → J.phase = .finished ok →
      J.gen ∈ initState.closed) ∧
    (∀ s' j J K, Step initState s' → initState.jobs j = some J →
      s'.jobs j = some K → J.phase.isActive = true →
      K.phase.isActive = false →
      s'.closed = J.gen :: initState.closed ∧ s'.slot = none) ∧
    (∀ i j g, initState.slot = none → initState.threads i = .start →
      initState.jobs j = some ⟨g, .finished true⟩ →
      ∃ s1 s2, Step initState s1 ∧ Step s1 s2 ∧
        s2.threads i = .doneRedirect) :=
  claim_C5 Reachable.init

end HttpMirror
